import Mathlib

/-!
Verification of the from-scratch Transformer implementation in
`resources/transformer_and_attention_mechanism/attention_mechanism_and_transformer.ipynb`.

Tensors are modelled exactly: a rank-3 tensor is a shape triple together with a
total data function into the reals (floating point is modelled by exact real
arithmetic).  Operations that can raise shape errors in PyTorch (`bmm`, `+`,
`nn.Linear` application, `torch.cat`, `nn.LayerNorm` application) return
`Option`, with `none` for the error case.  Dropout is modelled in evaluation
mode, where it is the identity; every claim under verification is stated for
evaluation mode (dropout disabled).  The in-place update `src += position_encoding(...)`
(Python `__iadd__` on a torch tensor mutates the caller's buffer) is modelled by
explicit state passing: encoder/decoder forward return both the output and the
final contents of the caller's input buffer.
-/

noncomputable section

@[ext]
structure Tensor3 where
  batch : Nat
  rows : Nat
  cols : Nat
  data : Nat → Nat → Nat → ℝ

/-- The all-zero tensor of a given shape. -/
def Tensor3.zero (b r c : Nat) : Tensor3 := ⟨b, r, c, fun _ _ _ => 0⟩

/-- `torch.bmm`: batched matrix product; errors unless the batch sizes agree and
the inner dimensions match (no broadcasting). -/
def Tensor3.bmm (a b : Tensor3) : Option Tensor3 :=
  if a.batch = b.batch ∧ a.cols = b.rows then
    some ⟨a.batch, a.rows, b.cols, fun i j k =>
      ∑ l ∈ Finset.range a.cols, a.data i j l * b.data i l k⟩
  else none

/-- `Tensor.transpose(1, 2)`: swap the last two dimensions. -/
def Tensor3.transpose12 (t : Tensor3) : Tensor3 :=
  ⟨t.batch, t.cols, t.rows, fun i j k => t.data i k j⟩

/-- Elementwise division by a scalar (`temp / scale`). -/
def Tensor3.scalarDiv (t : Tensor3) (c : ℝ) : Tensor3 :=
  ⟨t.batch, t.rows, t.cols, fun i j k => t.data i j k / c⟩

/-- `f.softmax(·, dim=-1)`: softmax along the last dimension. -/
def Tensor3.softmaxLast (t : Tensor3) : Tensor3 :=
  ⟨t.batch, t.rows, t.cols, fun i j k =>
    Real.exp (t.data i j k) / ∑ l ∈ Finset.range t.cols, Real.exp (t.data i j l)⟩

/-- Elementwise addition of same-shape tensors (`x + y`). -/
def Tensor3.add (a b : Tensor3) : Option Tensor3 :=
  if a.batch = b.batch ∧ a.rows = b.rows ∧ a.cols = b.cols then
    some ⟨a.batch, a.rows, a.cols, fun i j k => a.data i j k + b.data i j k⟩
  else none

/-- In-place broadcast addition `a += pe` of a batch-1 tensor onto `a`
(the positional-encoding update); the result is the new contents of `a`'s
buffer. -/
def Tensor3.addPE (a pe : Tensor3) : Option Tensor3 :=
  if pe.batch = 1 ∧ a.rows = pe.rows ∧ a.cols = pe.cols then
    some ⟨a.batch, a.rows, a.cols, fun i j k => a.data i j k + pe.data 0 j k⟩
  else none

/-- `f.relu` applied elementwise. -/
def Tensor3.relu (t : Tensor3) : Tensor3 :=
  ⟨t.batch, t.rows, t.cols, fun i j k => max (t.data i j k) 0⟩

/-- `torch.cat(·, dim=-1)`: concatenate along the last dimension; errors on an
empty list or mismatched leading dimensions. -/
def Tensor3.catLast : List Tensor3 → Option Tensor3
  | [] => none
  | [t] => some t
  | t :: ts => do
      let rest ← Tensor3.catLast ts
      if t.batch = rest.batch ∧ t.rows = rest.rows then
        some ⟨t.batch, t.rows, t.cols + rest.cols, fun i j k =>
          if k < t.cols then t.data i j k else rest.data i j (k - t.cols)⟩
      else none

/-- `scaled_dot_product_attention` (notebook cell, lines 108–112):
`softmax(Q·Kᵗ / sqrt(dk), dim=-1) · V` with `dk = query.size(-1)`. -/
def scaled_dot_product_attention (query key value : Tensor3) : Option Tensor3 := do
  let temp ← query.bmm key.transpose12
  let scale := Real.sqrt (query.cols : ℝ)
  let soft := (temp.scalarDiv scale).softmaxLast
  soft.bmm value

/-- The attention-weight tensor `softmax(Q·Kᵗ / sqrt(dk), dim=-1)` computed by
`scaled_dot_product_attention` before the final product with `V`. -/
def sdpaWeights (query key : Tensor3) : Option Tensor3 := do
  let temp ← query.bmm key.transpose12
  return (temp.scalarDiv (Real.sqrt (query.cols : ℝ))).softmaxLast

/-- `nn.Linear(inF, outF)`: weights indexed (output, input), plus a bias. -/
structure Linear where
  inF : Nat
  outF : Nat
  weight : Nat → Nat → ℝ
  bias : Nat → ℝ

/-- Applying a linear layer to the last dimension of a rank-3 tensor; errors if
the feature dimension does not match. -/
def Linear.forward (l : Linear) (t : Tensor3) : Option Tensor3 :=
  if t.cols = l.inF then
    some ⟨t.batch, t.rows, l.outF, fun i j k =>
      (∑ m ∈ Finset.range l.inF, t.data i j m * l.weight k m) + l.bias k⟩
  else none

/-- `AttentionHead`: three linear projections feeding the attention kernel. -/
structure AttentionHead where
  q : Linear
  k : Linear
  v : Linear

/-- `AttentionHead.forward` (lines 135–136). -/
def AttentionHead.forward (h : AttentionHead) (query key value : Tensor3) : Option Tensor3 := do
  let qp ← h.q.forward query
  let kp ← h.k.forward key
  let vp ← h.v.forward value
  scaled_dot_product_attention qp kp vp

/-- `MultiHeadAttention`: a list of heads and the output fusion linear. -/
structure MultiHeadAttention where
  heads : List AttentionHead
  linear : Linear

/-- The list comprehension `[h(query, key, value) for h in self.heads]`,
sequencing the possible shape errors. -/
def runHeads : List AttentionHead → Tensor3 → Tensor3 → Tensor3 → Option (List Tensor3)
  | [], _, _, _ => some []
  | h :: hs, q, k, v => do
      let u ← h.forward q k v
      let us ← runHeads hs q k v
      return (u :: us)

/-- `MultiHeadAttention.forward` (lines 174–177): run every head, concatenate
along the feature axis, apply the fusion linear. -/
def MultiHeadAttention.forward (m : MultiHeadAttention) (query key value : Tensor3) :
    Option Tensor3 := do
  let outs ← runHeads m.heads query key value
  let c ← Tensor3.catLast outs
  m.linear.forward c

/-- Adapter giving `MultiHeadAttention.forward` the `(*tensors)` calling
convention used by `Residual`. -/
def MultiHeadAttention.call (m : MultiHeadAttention) : List Tensor3 → Option Tensor3
  | [query, key, value] => m.forward query key value
  | _ => none

/-- `position_encoding` (lines 220–225): `phase = (pos / 1e4) ** (dim // dim_model)`
with float floor division, then `where(dim % 2 == 0, sin(phase), cos(phase))`.
The floor division of the channel index by `dim_model` is `i / dim_model` on
naturals, and the float power at a natural exponent is the monoid power (in
particular `0.0 ** 0.0 = 1.0`, matching torch). -/
def position_encoding (seq_len dim_model : Nat) : Tensor3 :=
  ⟨1, seq_len, dim_model, fun _ pos i =>
    if i % 2 = 0 then Real.sin (((pos : ℝ) / 10000) ^ (i / dim_model))
    else Real.cos (((pos : ℝ) / 10000) ^ (i / dim_model))⟩

/-- The contents of a tensor buffer after the in-place update
`a += position_encoding(a.rows, a.cols)` performed by the encoder and decoder
forward passes. -/
def Tensor3.afterPE (a : Tensor3) : Tensor3 :=
  ⟨a.batch, a.rows, a.cols, fun i j k =>
    a.data i j k + (position_encoding a.rows a.cols).data 0 j k⟩

/-- Positional encoding as the specification words it: for position `pos` and
channel `i`, even channels use `sin(pos / 10000 ^ (2 * (i / 2) / dim_model))` and
odd channels use `cos` of the same argument (real exponent). -/
def position_encoding_spec (seq_len dim_model : Nat) : Tensor3 :=
  ⟨1, seq_len, dim_model, fun _ pos i =>
    if i % 2 = 0 then
      Real.sin ((pos : ℝ) / (10000 : ℝ) ^ (((2 * (i / 2) : Nat) : ℝ) / (dim_model : ℝ)))
    else
      Real.cos ((pos : ℝ) / (10000 : ℝ) ^ (((2 * (i / 2) : Nat) : ℝ) / (dim_model : ℝ)))⟩

theorem pe_phase_one (dim_model pos i : Nat) (hi : i < dim_model) :
    (((pos : ℝ) / 10000) ^ (i / dim_model)) = 1 := by
  rw [Nat.div_eq_of_lt hi]
  simp

theorem sin_one_pos : (0 : ℝ) < Real.sin 1 := by
  apply Real.sin_pos_of_pos_of_lt_pi
  · norm_num
  · linarith [Real.pi_gt_three]

theorem sin_one_ne_zero : Real.sin 1 ≠ 0 := ne_of_gt sin_one_pos

/-- `nn.LayerNorm(dimension)`: per-position normalization over the channel axis
with learned affine parameters; `eps = 1e-5` (the torch default) sits inside the
square root. -/
structure LayerNorm where
  dim : Nat
  gamma : Nat → ℝ
  beta : Nat → ℝ

def layerNormEps : ℝ := 1 / 100000

def LayerNorm.forward (n : LayerNorm) (t : Tensor3) : Option Tensor3 :=
  if t.cols = n.dim then
    some ⟨t.batch, t.rows, t.cols, fun i j k =>
      let mu := (∑ l ∈ Finset.range t.cols, t.data i j l) / (t.cols : ℝ)
      let sigmaSq := (∑ l ∈ Finset.range t.cols, (t.data i j l - mu) ^ 2) / (t.cols : ℝ)
      n.gamma k * ((t.data i j k - mu) / Real.sqrt (sigmaSq + layerNormEps)) + n.beta k⟩
  else none

/-- `nn.Dropout` in evaluation mode: the identity. -/
def Dropout.forward (t : Tensor3) : Tensor3 := t

/-- `Residual` (lines 299–309): holds the normalization; the wrapped sublayer is
passed explicitly as a function on the argument list.  The dropout probability
is immaterial in evaluation mode and not modelled. -/
structure Residual where
  norm : LayerNorm

/-- `Residual.forward (*tensors)`:
`self.norm(tensors[-1] + self.dropout(self.sublayer(*tensors)))`. -/
def Residual.forward (r : Residual) (sublayer : List Tensor3 → Option Tensor3)
    (tensors : List Tensor3) : Option Tensor3 := do
  let out ← sublayer tensors
  let base ← tensors.getLast?
  let s ← base.add (Dropout.forward out)
  r.norm.forward s

/-- The two-linear-layer network produced by `feed_forward` (lines 271–276):
`Linear(dim_input, dim_feedforward) ∘ ReLU ∘ Linear(dim_feedforward, dim_input)`. -/
structure FeedForward where
  l1 : Linear
  l2 : Linear

def FeedForward.forward (f : FeedForward) (t : Tensor3) : Option Tensor3 := do
  let a ← f.l1.forward t
  f.l2.forward a.relu

/-- Adapter giving the feed-forward network the `(*tensors)` calling convention
used by `Residual` (it is always called with a single tensor). -/
def FeedForward.call (f : FeedForward) : List Tensor3 → Option Tensor3
  | [t] => f.forward t
  | _ => none

/-- `TransformerEncoderLayer` (lines 327–350): a self-attention residual block
followed by a feed-forward residual block. -/
structure TransformerEncoderLayer where
  attention_mha : MultiHeadAttention
  attention_res : Residual
  ff : FeedForward
  ff_res : Residual

def TransformerEncoderLayer.forward (L : TransformerEncoderLayer) (src : Tensor3) :
    Option Tensor3 := do
  let src1 ← L.attention_res.forward L.attention_mha.call [src, src, src]
  L.ff_res.forward L.ff.call [src1]

structure TransformerEncoder where
  layers : List TransformerEncoderLayer

/-- The `for layer in self.layers: src = layer(src)` loop of the encoder. -/
def TransformerEncoder.run : List TransformerEncoderLayer → Tensor3 → Option Tensor3
  | [], src => some src
  | L :: Ls, src => do TransformerEncoder.run Ls (← L.forward src)

/-- `TransformerEncoder.forward` (lines 368–374).  `src += position_encoding(...)`
is an in-place torch operation mutating the caller's buffer; the second
component of the result is the buffer's contents after the call. -/
def TransformerEncoder.forward (E : TransformerEncoder) (src : Tensor3) :
    Option (Tensor3 × Tensor3) := do
  let src0 ← src.addPE (position_encoding src.rows src.cols)
  let out ← TransformerEncoder.run E.layers src0
  return (out, src0)

/-- `TransformerDecoderLayer` (lines 396–425): self-attention, cross-attention
and feed-forward residual blocks. -/
structure TransformerDecoderLayer where
  attention_1_mha : MultiHeadAttention
  attention_1_res : Residual
  attention_2_mha : MultiHeadAttention
  attention_2_res : Residual
  ff : FeedForward
  ff_res : Residual

/-- `TransformerDecoderLayer.forward` (lines 422–425):
`tgt = self.attention_1(tgt, tgt, tgt)`, then
`tgt = self.attention_2(memory, memory, tgt)`, then the feed-forward block. -/
def TransformerDecoderLayer.forward (L : TransformerDecoderLayer) (tgt memory : Tensor3) :
    Option Tensor3 := do
  let tgt1 ← L.attention_1_res.forward L.attention_1_mha.call [tgt, tgt, tgt]
  let tgt2 ← L.attention_2_res.forward L.attention_2_mha.call [memory, memory, tgt1]
  L.ff_res.forward L.ff.call [tgt2]

structure TransformerDecoder where
  layers : List TransformerDecoderLayer
  linear : Linear

/-- The `for layer in self.layers: tgt = layer(tgt, memory)` loop of the decoder. -/
def TransformerDecoder.run : List TransformerDecoderLayer → Tensor3 → Tensor3 → Option Tensor3
  | [], tgt, _ => some tgt
  | L :: Ls, tgt, memory => do TransformerDecoder.run Ls (← L.forward tgt memory) memory

/-- `TransformerDecoder.forward` (lines 444–450): in-place positional-encoding
add (second component: the caller's buffer afterwards), the layer loop, the
final linear and a softmax over the channel axis. -/
def TransformerDecoder.forward (D : TransformerDecoder) (tgt memory : Tensor3) :
    Option (Tensor3 × Tensor3) := do
  let tgt0 ← tgt.addPE (position_encoding tgt.rows tgt.cols)
  let out ← TransformerDecoder.run D.layers tgt0 memory
  let lin ← D.linear.forward out
  return (lin.softmaxLast, tgt0)

structure Transformer where
  encoder : TransformerEncoder
  decoder : TransformerDecoder

/-- `Transformer.forward` (lines 495–496): `self.decoder(tgt, self.encoder(src))`.
Result: (decoder output, caller's source buffer afterwards, caller's target
buffer afterwards). -/
def Transformer.forward (T : Transformer) (src tgt : Tensor3) :
    Option (Tensor3 × Tensor3 × Tensor3) := do
  let (memory, srcAfter) ← T.encoder.forward src
  let (out, tgtAfter) ← T.decoder.forward tgt memory
  return (out, srcAfter, tgtAfter)

/-- Construction of `nn.Linear(inF, outF)`.  The random weight initialization is
not observable by any claim under verification (all are stated for arbitrary or
irrelevant parameter values), so the freshly initialized parameters are taken
as zero; the dimension wiring is exactly the source's. -/
def Linear.init (inF outF : Nat) : Linear := ⟨inF, outF, fun _ _ => 0, fun _ => 0⟩

/-- `AttentionHead.__init__(dim_in, dim_k, dim_v)` (lines 129–133). -/
def AttentionHead.init (dim_in dim_k dim_v : Nat) : AttentionHead :=
  ⟨Linear.init dim_in dim_k, Linear.init dim_in dim_k, Linear.init dim_in dim_v⟩

/-- `MultiHeadAttention.__init__(num_heads, dim_in, dim_k, dim_v)` (lines 167–172). -/
def MultiHeadAttention.init (num_heads dim_in dim_k dim_v : Nat) : MultiHeadAttention :=
  ⟨List.replicate num_heads (AttentionHead.init dim_in dim_k dim_v),
   Linear.init (num_heads * dim_v) dim_in⟩

def LayerNorm.init (dim : Nat) : LayerNorm := ⟨dim, fun _ => 1, fun _ => 0⟩

def Residual.init (dim : Nat) : Residual := ⟨LayerNorm.init dim⟩

/-- `feed_forward(dim_input, dim_feedforward)` (lines 271–276). -/
def feed_forward (dim_input dim_feedforward : Nat) : FeedForward :=
  ⟨Linear.init dim_input dim_feedforward, Linear.init dim_feedforward dim_input⟩

/-- `TransformerEncoderLayer.__init__` (lines 327–346): computes
`dim_k = dim_v = dim_model // num_heads` with no divisibility check and wires
the two residual blocks. -/
def TransformerEncoderLayer.init (dim_model num_heads dim_feedforward : Nat) :
    TransformerEncoderLayer :=
  let dim_k := dim_model / num_heads
  ⟨MultiHeadAttention.init num_heads dim_model dim_k dim_k,
   Residual.init dim_model,
   feed_forward dim_model dim_feedforward,
   Residual.init dim_model⟩

/-- `TransformerDecoderLayer.__init__` (lines 396–420): same silent
`dim_model // num_heads` division, three residual blocks. -/
def TransformerDecoderLayer.init (dim_model num_heads dim_feedforward : Nat) :
    TransformerDecoderLayer :=
  let dim_k := dim_model / num_heads
  ⟨MultiHeadAttention.init num_heads dim_model dim_k dim_k,
   Residual.init dim_model,
   MultiHeadAttention.init num_heads dim_model dim_k dim_k,
   Residual.init dim_model,
   feed_forward dim_model dim_feedforward,
   Residual.init dim_model⟩

def TransformerEncoder.init (num_layers dim_model num_heads dim_feedforward : Nat) :
    TransformerEncoder :=
  ⟨List.replicate num_layers (TransformerEncoderLayer.init dim_model num_heads dim_feedforward)⟩

def TransformerDecoder.init (num_layers dim_model num_heads dim_feedforward : Nat) :
    TransformerDecoder :=
  ⟨List.replicate num_layers (TransformerDecoderLayer.init dim_model num_heads dim_feedforward),
   Linear.init dim_model dim_model⟩

def Transformer.init (num_encoder_layers num_decoder_layers dim_model num_heads
    dim_feedforward : Nat) : Transformer :=
  ⟨TransformerEncoder.init num_encoder_layers dim_model num_heads dim_feedforward,
   TransformerDecoder.init num_decoder_layers dim_model num_heads dim_feedforward⟩

/-- Modelled from the spec: the construction-time behavior the specification
asks for — report an error (here: `none`) when `dim_model` is not divisible by
`num_heads`, otherwise construct the layer. -/
def TransformerEncoderLayer.initChecked (dim_model num_heads dim_feedforward : Nat) :
    Option TransformerEncoderLayer :=
  if dim_model % num_heads = 0 then
    some (TransformerEncoderLayer.init dim_model num_heads dim_feedforward)
  else none

/-- Shape well-formedness of an attention head for model width `dim`: all three
projections consume `dim` features and the query/key projections agree on their
output width, so the kernel's inner products are defined. -/
def AttentionHead.WF (dim : Nat) (h : AttentionHead) : Prop :=
  h.q.inF = dim ∧ h.k.inF = dim ∧ h.v.inF = dim ∧ h.q.outF = h.k.outF

/-- Shape well-formedness of a multi-head attention block for model width `dim`. -/
def MultiHeadAttention.WF (dim : Nat) (m : MultiHeadAttention) : Prop :=
  m.heads ≠ [] ∧ (∀ h ∈ m.heads, h.WF dim) ∧
  m.linear.inF = (m.heads.map (fun h => h.v.outF)).sum ∧ m.linear.outF = dim

def FeedForward.WF (dim : Nat) (f : FeedForward) : Prop :=
  f.l1.inF = dim ∧ f.l2.inF = f.l1.outF ∧ f.l2.outF = dim

def TransformerEncoderLayer.WF (dim : Nat) (L : TransformerEncoderLayer) : Prop :=
  L.attention_mha.WF dim ∧ L.attention_res.norm.dim = dim ∧
  L.ff.WF dim ∧ L.ff_res.norm.dim = dim

def TransformerDecoderLayer.WF (dim : Nat) (L : TransformerDecoderLayer) : Prop :=
  L.attention_1_mha.WF dim ∧ L.attention_1_res.norm.dim = dim ∧
  L.attention_2_mha.WF dim ∧ L.attention_2_res.norm.dim = dim ∧
  L.ff.WF dim ∧ L.ff_res.norm.dim = dim

def TransformerEncoder.WF (dim : Nat) (E : TransformerEncoder) : Prop :=
  ∀ L ∈ E.layers, L.WF dim

def TransformerDecoder.WF (dim : Nat) (D : TransformerDecoder) : Prop :=
  (∀ L ∈ D.layers, L.WF dim) ∧ D.linear.inF = dim ∧ D.linear.outF = dim

def Transformer.WF (dim : Nat) (T : Transformer) : Prop :=
  T.encoder.WF dim ∧ T.decoder.WF dim

theorem linear_forward_some (l : Linear) (t : Tensor3) (h : t.cols = l.inF) :
    l.forward t = some ⟨t.batch, t.rows, l.outF, fun i j k =>
      (∑ m ∈ Finset.range l.inF, t.data i j m * l.weight k m) + l.bias k⟩ := by
  simp [Linear.forward, h]

theorem linear_forward_shape (l : Linear) (t u : Tensor3) (h : l.forward t = some u) :
    u.batch = t.batch ∧ u.rows = t.rows ∧ u.cols = l.outF := by
  by_cases hc : t.cols = l.inF
  · rw [linear_forward_some l t hc] at h
    cases h
    exact ⟨rfl, rfl, rfl⟩
  · simp [Linear.forward, hc] at h

theorem Tensor3.bmm_some (a b : Tensor3) (hb : a.batch = b.batch) (hc : a.cols = b.rows) :
    a.bmm b = some ⟨a.batch, a.rows, b.cols, fun i j k =>
      ∑ l ∈ Finset.range a.cols, a.data i j l * b.data i l k⟩ := by
  simp [Tensor3.bmm, hb, hc]

theorem Tensor3.bmm_none (a b : Tensor3) (hc : a.cols ≠ b.rows) : a.bmm b = none := by
  simp [Tensor3.bmm, hc]

theorem Tensor3.softmaxLast_row_sum (t : Tensor3) (h : 0 < t.cols) (i j : Nat) :
    ∑ k ∈ Finset.range t.cols, t.softmaxLast.data i j k = 1 := by
  have hpos : (0 : ℝ) < ∑ l ∈ Finset.range t.cols, Real.exp (t.data i j l) := by
    apply Finset.sum_pos (fun l _ => Real.exp_pos _)
    exact Finset.nonempty_range_iff.mpr h.ne'
  simp only [Tensor3.softmaxLast]
  rw [← Finset.sum_div]
  exact div_self (ne_of_gt hpos)

theorem sdpa_eq_weights_bmm (q k v : Tensor3) :
    scaled_dot_product_attention q k v =
      (sdpaWeights q k).bind (fun w => w.bmm v) := by
  unfold scaled_dot_product_attention sdpaWeights
  rcases q.bmm k.transpose12 with _ | temp <;> rfl

theorem sdpaWeights_some (q k : Tensor3) (hbk : q.batch = k.batch) (hc : q.cols = k.cols) :
    ∃ w, sdpaWeights q k = some w ∧
      w.batch = q.batch ∧ w.rows = q.rows ∧ w.cols = k.rows ∧
      (0 < k.rows → ∀ i j, ∑ l ∈ Finset.range k.rows, w.data i j l = 1) := by
  have h1 : q.batch = k.transpose12.batch := hbk
  have h2 : q.cols = k.transpose12.rows := hc
  have htemp := Tensor3.bmm_some q k.transpose12 h1 h2
  refine ⟨((⟨q.batch, q.rows, k.transpose12.cols, fun i j kk =>
      ∑ l ∈ Finset.range q.cols, q.data i j l * k.transpose12.data i l kk⟩ : Tensor3).scalarDiv
      (Real.sqrt (q.cols : ℝ))).softmaxLast, ?_, rfl, rfl, rfl, ?_⟩
  · simp [sdpaWeights, htemp]
  · intro hr i j
    exact Tensor3.softmaxLast_row_sum _ hr i j

theorem scaled_dot_product_attention_some (q k v : Tensor3)
    (hbk : q.batch = k.batch) (hbv : v.batch = q.batch)
    (hc : q.cols = k.cols) (hr : k.rows = v.rows) :
    ∃ u w, scaled_dot_product_attention q k v = some u ∧
      sdpaWeights q k = some w ∧ w.bmm v = some u ∧
      u.batch = q.batch ∧ u.rows = q.rows ∧ u.cols = v.cols := by
  obtain ⟨w, hw, hwb, hwr, hwc, _⟩ := sdpaWeights_some q k hbk hc
  have hfin := Tensor3.bmm_some w v (by rw [hwb, ← hbv]) (by rw [hwc, hr])
  refine ⟨_, w, ?_, hw, hfin, ?_, ?_, ?_⟩
  · rw [sdpa_eq_weights_bmm, hw]
    exact hfin
  · exact hwb
  · exact hwr
  · rfl

theorem scaled_dot_product_attention_none (q k v : Tensor3) (hr : k.rows ≠ v.rows) :
    scaled_dot_product_attention q k v = none := by
  rcases hbm : q.bmm k.transpose12 with _ | temp
  · simp [scaled_dot_product_attention, hbm]
  · have hshape : temp.cols = k.rows := by
      unfold Tensor3.bmm at hbm
      split at hbm
      · cases hbm; rfl
      · cases hbm
    simp only [scaled_dot_product_attention, hbm, Option.bind_some]
    apply Tensor3.bmm_none
    simpa [Tensor3.softmaxLast, Tensor3.scalarDiv, hshape] using hr

theorem linear_forward_isSome (l : Linear) (t : Tensor3) (h : t.cols = l.inF) :
    ∃ u, l.forward t = some u ∧ u.batch = t.batch ∧ u.rows = t.rows ∧ u.cols = l.outF :=
  ⟨_, linear_forward_some l t h, rfl, rfl, rfl⟩

theorem attentionHead_forward_some (h : AttentionHead) (dim : Nat) (hWF : h.WF dim)
    (query key value : Tensor3)
    (hqc : query.cols = dim) (hkc : key.cols = dim) (hvc : value.cols = dim)
    (hbk : key.batch = query.batch) (hbv : value.batch = query.batch)
    (hrkv : key.rows = value.rows) :
    ∃ u, h.forward query key value = some u ∧
      u.batch = query.batch ∧ u.rows = query.rows ∧ u.cols = h.v.outF := by
  obtain ⟨hq, hk, hv, hqk⟩ := hWF
  obtain ⟨qp, hq1, hqb, hqr, hqc2⟩ := linear_forward_isSome h.q query (by rw [hqc, hq])
  obtain ⟨kp, hk1, hkb, hkr, hkc2⟩ := linear_forward_isSome h.k key (by rw [hkc, hk])
  obtain ⟨vp, hv1, hvb, hvr, hvc2⟩ := linear_forward_isSome h.v value (by rw [hvc, hv])
  obtain ⟨u, w, hsdpa, _, _, hub, hur, huc⟩ := scaled_dot_product_attention_some qp kp vp
    (by rw [hqb, hkb, hbk]) (by rw [hvb, hqb, hbv]) (by rw [hqc2, hkc2, hqk])
    (by rw [hkr, hvr, hrkv])
  refine ⟨u, ?_, by rw [hub, hqb], by rw [hur, hqr], by rw [huc, hvc2]⟩
  simp [AttentionHead.forward, hq1, hk1, hv1, hsdpa]

theorem attentionHead_forward_none (h : AttentionHead) (query key value : Tensor3)
    (hr : key.rows ≠ value.rows) : h.forward query key value = none := by
  unfold AttentionHead.forward
  rcases hq1 : h.q.forward query with _ | qp
  · rfl
  rcases hk1 : h.k.forward key with _ | kp
  · rfl
  rcases hv1 : h.v.forward value with _ | vp
  · rfl
  have hkr : kp.rows = key.rows := (linear_forward_shape h.k key kp hk1).2.1
  have hvr : vp.rows = value.rows := (linear_forward_shape h.v value vp hv1).2.1
  exact scaled_dot_product_attention_none qp kp vp (by rw [hkr, hvr]; exact hr)

theorem runHeads_some (hs : List AttentionHead) (dim : Nat) (hWF : ∀ h ∈ hs, h.WF dim)
    (query key value : Tensor3)
    (hqc : query.cols = dim) (hkc : key.cols = dim) (hvc : value.cols = dim)
    (hbk : key.batch = query.batch) (hbv : value.batch = query.batch)
    (hrkv : key.rows = value.rows) :
    ∃ us, runHeads hs query key value = some us ∧
      (∀ u ∈ us, u.batch = query.batch ∧ u.rows = query.rows) ∧
      us.map Tensor3.cols = hs.map (fun h => h.v.outF) := by
  induction hs with
  | nil => exact ⟨[], rfl, by simp, by simp⟩
  | cons h hs ih =>
      obtain ⟨u, hu, hub, hur, huc⟩ := attentionHead_forward_some h dim
        (hWF h (List.mem_cons_self h hs)) query key value hqc hkc hvc hbk hbv hrkv
      obtain ⟨us, hus, hshape, hcols⟩ := ih (fun h' hh' => hWF h' (List.mem_cons_of_mem h hh'))
      refine ⟨u :: us, ?_, ?_, ?_⟩
      · unfold runHeads
        rw [hu, hus]
        rfl
      · intro x hx
        rcases List.mem_cons.mp hx with rfl | hx
        · exact ⟨hub, hur⟩
        · exact hshape x hx
      · simp [huc, hcols]

theorem runHeads_none (h : AttentionHead) (hs : List AttentionHead)
    (query key value : Tensor3) (hr : key.rows ≠ value.rows) :
    runHeads (h :: hs) query key value = none := by
  unfold runHeads
  rw [attentionHead_forward_none h query key value hr]
  rfl

theorem Tensor3.catLast_some (us : List Tensor3) (B R : Nat) (hne : us ≠ [])
    (hsh : ∀ u ∈ us, u.batch = B ∧ u.rows = R) :
    ∃ c, Tensor3.catLast us = some c ∧
      c.batch = B ∧ c.rows = R ∧ c.cols = (us.map Tensor3.cols).sum := by
  induction us with
  | nil => exact absurd rfl hne
  | cons t ts ih =>
      rcases ts with _ | ⟨t2, ts2⟩
      · obtain ⟨hb, hr⟩ := hsh t (List.mem_cons_self t [])
        exact ⟨t, rfl, hb, hr, by simp⟩
      · obtain ⟨c, hc, hcb, hcr, hcc⟩ := ih (by simp)
          (fun u hu => hsh u (List.mem_cons_of_mem t hu))
        obtain ⟨hb, hr⟩ := hsh t (List.mem_cons_self t (t2 :: ts2))
        refine ⟨⟨t.batch, t.rows, t.cols + c.cols, fun i j k =>
          if k < t.cols then t.data i j k else c.data i j (k - t.cols)⟩, ?_, hb, hr, ?_⟩
        · show Tensor3.catLast (t :: t2 :: ts2) = _
          unfold Tensor3.catLast
          rw [hc]
          show (if t.batch = c.batch ∧ t.rows = c.rows then _ else none) = _
          rw [if_pos ⟨by rw [hb, hcb], by rw [hr, hcr]⟩]
        · simp [hcc]

theorem mha_forward_some (m : MultiHeadAttention) (dim : Nat)
    (hWF : m.WF dim) (query key value : Tensor3)
    (hqc : query.cols = dim) (hkc : key.cols = dim) (hvc : value.cols = dim)
    (hbk : key.batch = query.batch) (hbv : value.batch = query.batch)
    (hrkv : key.rows = value.rows) :
    ∃ u, m.forward query key value = some u ∧
      u.batch = query.batch ∧ u.rows = query.rows ∧ u.cols = dim := by
  obtain ⟨hne, hheads, hlin, hlout⟩ := hWF
  obtain ⟨us, hus, hshape, hcols⟩ := runHeads_some m.heads dim hheads query key value
    hqc hkc hvc hbk hbv hrkv
  have husne : us ≠ [] := by
    intro h0
    rw [h0] at hcols
    exact hne (List.map_eq_nil_iff.mp hcols.symm)
  obtain ⟨c, hc, hcb, hcr, hcc⟩ := Tensor3.catLast_some us query.batch query.rows husne hshape
  have hcl : c.cols = m.linear.inF := by rw [hcc, hcols, hlin]
  obtain ⟨r, hl, hrb, hrr, hrc⟩ := linear_forward_isSome m.linear c hcl
  refine ⟨r, ?_, by rw [hrb, hcb], by rw [hrr, hcr], by rw [hrc, hlout]⟩
  simp [MultiHeadAttention.forward, hus, hc, hl]

theorem mha_forward_none (m : MultiHeadAttention)
    (query key value : Tensor3) (hne : m.heads ≠ [])
    (hr : key.rows ≠ value.rows) : m.forward query key value = none := by
  rcases hhs : m.heads with _ | ⟨h, hs⟩
  · exact absurd hhs hne
  · simp [MultiHeadAttention.forward, hhs, runHeads_none h hs query key value hr]

theorem layerNorm_forward_isSome (n : LayerNorm) (t : Tensor3) (h : t.cols = n.dim) :
    ∃ u, n.forward t = some u ∧ u.batch = t.batch ∧ u.rows = t.rows ∧ u.cols = t.cols := by
  unfold LayerNorm.forward
  rw [if_pos h]
  exact ⟨_, rfl, rfl, rfl, rfl⟩

theorem Tensor3.add_isSome (a b : Tensor3) (hb : a.batch = b.batch) (hr : a.rows = b.rows)
    (hc : a.cols = b.cols) :
    Tensor3.add a b = some ⟨a.batch, a.rows, a.cols, fun i j k => a.data i j k + b.data i j k⟩ := by
  simp [Tensor3.add, hb, hr, hc]

theorem residual_forward_some (r : Residual) (sublayer : List Tensor3 → Option Tensor3)
    (tensors : List Tensor3) (base out : Tensor3)
    (hlast : tensors.getLast? = some base) (hsub : sublayer tensors = some out)
    (hb : base.batch = out.batch) (hr : base.rows = out.rows) (hc : base.cols = out.cols)
    (hn : base.cols = r.norm.dim) :
    ∃ u, r.forward sublayer tensors = some u ∧
      u.batch = base.batch ∧ u.rows = base.rows ∧ u.cols = base.cols := by
  have hadd := Tensor3.add_isSome base (Dropout.forward out) hb hr hc
  obtain ⟨u, hu, hub, hur, huc⟩ := layerNorm_forward_isSome r.norm
    ⟨base.batch, base.rows, base.cols, fun i j k => base.data i j k + (Dropout.forward out).data i j k⟩ hn
  refine ⟨u, ?_, hub, hur, huc⟩
  unfold Residual.forward
  rw [hsub, hlast]
  show (base.add (Dropout.forward out)).bind r.norm.forward = some u
  rw [hadd]
  exact hu

theorem residual_forward_none_of_sub (r : Residual) (sublayer : List Tensor3 → Option Tensor3)
    (tensors : List Tensor3) (hsub : sublayer tensors = none) :
    r.forward sublayer tensors = none := by
  unfold Residual.forward
  rw [hsub]
  rfl

theorem feedForward_forward_some (f : FeedForward) (dim : Nat) (hWF : f.WF dim)
    (t : Tensor3) (hc : t.cols = dim) :
    ∃ u, f.forward t = some u ∧ u.batch = t.batch ∧ u.rows = t.rows ∧ u.cols = dim := by
  obtain ⟨h1, h2, h3⟩ := hWF
  obtain ⟨a, ha, hab, har, hac⟩ := linear_forward_isSome f.l1 t (by rw [hc, h1])
  obtain ⟨u, hu, hub, hur, huc⟩ := linear_forward_isSome f.l2 a.relu
    (by show a.relu.cols = _; simp [Tensor3.relu, hac, h2])
  refine ⟨u, ?_, ?_, ?_, by rw [huc, h3]⟩
  · unfold FeedForward.forward
    rw [ha]
    exact hu
  · rw [hub]; show a.batch = t.batch; exact hab
  · rw [hur]; show a.rows = t.rows; exact har

theorem encoderLayer_forward_some (L : TransformerEncoderLayer) (dim : Nat)
    (hWF : L.WF dim) (src : Tensor3) (hc : src.cols = dim) :
    ∃ u, L.forward src = some u ∧
      u.batch = src.batch ∧ u.rows = src.rows ∧ u.cols = dim := by
  obtain ⟨hmha, hn1, hff, hn2⟩ := hWF
  obtain ⟨a, ha, hab, har, hac⟩ := mha_forward_some L.attention_mha dim hmha
    src src src hc hc hc rfl rfl rfl
  obtain ⟨s1, hs1, hs1b, hs1r, hs1c⟩ := residual_forward_some L.attention_res
    L.attention_mha.call [src, src, src] src a (by rfl)
    (by show L.attention_mha.forward src src src = some a; exact ha)
    hab.symm har.symm (by rw [hc, hac]) (by rw [hc, hn1])
  obtain ⟨b, hb2, hbb, hbr, hbc⟩ := feedForward_forward_some L.ff dim hff s1 (by rw [hs1c, hc])
  obtain ⟨u, hu, hub, hur, huc⟩ := residual_forward_some L.ff_res L.ff.call [s1] s1 b (by rfl)
    (by show L.ff.forward s1 = some b; exact hb2)
    hbb.symm hbr.symm (by rw [hs1c, hc, ← hbc]) (by rw [hs1c, hc, hn2])
  refine ⟨u, ?_, by rw [hub, hs1b], by rw [hur, hs1r], by rw [huc, hs1c, hc]⟩
  unfold TransformerEncoderLayer.forward
  rw [hs1]
  exact hu

theorem encoder_run_some (Ls : List TransformerEncoderLayer) (dim : Nat)
    (hWF : ∀ L ∈ Ls, L.WF dim) (src : Tensor3) (hc : src.cols = dim) :
    ∃ u, TransformerEncoder.run Ls src = some u ∧
      u.batch = src.batch ∧ u.rows = src.rows ∧ u.cols = dim := by
  induction Ls generalizing src with
  | nil => exact ⟨src, rfl, rfl, rfl, hc⟩
  | cons L Ls ih =>
      obtain ⟨a, ha, hab, har, hac⟩ := encoderLayer_forward_some L dim
        (hWF L (List.mem_cons_self L Ls)) src hc
      obtain ⟨u, hu, hub, hur, huc⟩ := ih (fun L' hL' => hWF L' (List.mem_cons_of_mem L hL')) a hac
      refine ⟨u, ?_, by rw [hub, hab], by rw [hur, har], huc⟩
      unfold TransformerEncoder.run
      rw [ha]
      exact hu

theorem Tensor3.addPE_self (a : Tensor3) :
    a.addPE (position_encoding a.rows a.cols) = some a.afterPE := by
  simp [Tensor3.addPE, position_encoding, Tensor3.afterPE]

theorem encoder_forward_some (E : TransformerEncoder) (dim : Nat)
    (hWF : E.WF dim) (src : Tensor3) (hc : src.cols = dim) :
    ∃ mem, E.forward src = some (mem, src.afterPE) ∧
      mem.batch = src.batch ∧ mem.rows = src.rows ∧ mem.cols = dim := by
  have hpe := Tensor3.addPE_self src
  obtain ⟨u, hu, hub, hur, huc⟩ := encoder_run_some E.layers dim hWF
    src.afterPE hc
  refine ⟨u, ?_, hub, hur, huc⟩
  unfold TransformerEncoder.forward
  rw [hpe]
  show (TransformerEncoder.run E.layers _).bind _ = _
  rw [hu]
  rfl

theorem decoderLayer_forward_some (L : TransformerDecoderLayer) (dim : Nat)
    (hWF : L.WF dim) (tgt memory : Tensor3) (hc : tgt.cols = dim) (hmc : memory.cols = dim)
    (hmb : memory.batch = tgt.batch) (hmr : memory.rows = tgt.rows) :
    ∃ u, L.forward tgt memory = some u ∧
      u.batch = tgt.batch ∧ u.rows = tgt.rows ∧ u.cols = dim := by
  obtain ⟨hm1, hn1, hm2, hn2, hff, hn3⟩ := hWF
  obtain ⟨a, ha, hab, har, hac⟩ := mha_forward_some L.attention_1_mha dim hm1
    tgt tgt tgt hc hc hc rfl rfl rfl
  obtain ⟨t1, ht1, ht1b, ht1r, ht1c⟩ := residual_forward_some L.attention_1_res
    L.attention_1_mha.call [tgt, tgt, tgt] tgt a (by rfl)
    (by show L.attention_1_mha.forward tgt tgt tgt = some a; exact ha)
    hab.symm har.symm (by rw [hc, hac]) (by rw [hc, hn1])
  obtain ⟨b, hb2, hbb, hbr, hbc⟩ := mha_forward_some L.attention_2_mha dim hm2
    memory memory t1 hmc hmc (by rw [ht1c, hc]) rfl
    (by rw [ht1b, hmb]) (by rw [ht1r, hmr])
  obtain ⟨t2, ht2, ht2b, ht2r, ht2c⟩ := residual_forward_some L.attention_2_res
    L.attention_2_mha.call [memory, memory, t1] t1 b (by rfl)
    (by show L.attention_2_mha.forward memory memory t1 = some b; exact hb2)
    (by rw [ht1b, hbb, hmb]) (by rw [ht1r, hbr, hmr]) (by rw [ht1c, hc, hbc])
    (by rw [ht1c, hc, hn2])
  obtain ⟨f1, hf1, hfb, hfr, hfc⟩ := feedForward_forward_some L.ff dim hff t2
    (by rw [ht2c, ht1c, hc])
  obtain ⟨u, hu, hub, hur, huc⟩ := residual_forward_some L.ff_res L.ff.call [t2] t2 f1 (by rfl)
    (by show L.ff.forward t2 = some f1; exact hf1)
    hfb.symm hfr.symm (by rw [ht2c, ht1c, hc, ← hfc]) (by rw [ht2c, ht1c, hc, hn3])
  refine ⟨u, ?_, by rw [hub, ht2b, ht1b], by rw [hur, ht2r, ht1r], by rw [huc, ht2c, ht1c, hc]⟩
  unfold TransformerDecoderLayer.forward
  rw [ht1]
  show (L.attention_2_res.forward L.attention_2_mha.call [memory, memory, t1]).bind _ = _
  rw [ht2]
  exact hu

theorem decoderLayer_forward_none (L : TransformerDecoderLayer) (dim : Nat)
    (hWF : L.WF dim) (tgt memory : Tensor3) (hc : tgt.cols = dim)
    (hne2 : L.attention_2_mha.heads ≠ [])
    (hmr : memory.rows ≠ tgt.rows) :
    L.forward tgt memory = none := by
  obtain ⟨hm1, hn1, _, _, _, _⟩ := hWF
  obtain ⟨a, ha, hab, har, hac⟩ := mha_forward_some L.attention_1_mha dim hm1
    tgt tgt tgt hc hc hc rfl rfl rfl
  obtain ⟨t1, ht1, ht1b, ht1r, ht1c⟩ := residual_forward_some L.attention_1_res
    L.attention_1_mha.call [tgt, tgt, tgt] tgt a (by rfl)
    (by show L.attention_1_mha.forward tgt tgt tgt = some a; exact ha)
    hab.symm har.symm (by rw [hc, hac]) (by rw [hc, hn1])
  have hcross : L.attention_2_mha.forward memory memory t1 = none :=
    mha_forward_none L.attention_2_mha memory memory t1 hne2
      (by rw [ht1r]; exact hmr)
  unfold TransformerDecoderLayer.forward
  rw [ht1]
  show (L.attention_2_res.forward L.attention_2_mha.call [memory, memory, t1]).bind _ = _
  rw [residual_forward_none_of_sub L.attention_2_res L.attention_2_mha.call
    [memory, memory, t1] (by show L.attention_2_mha.forward memory memory t1 = none; exact hcross)]
  rfl

theorem decoder_run_some (Ls : List TransformerDecoderLayer) (dim : Nat)
    (hWF : ∀ L ∈ Ls, L.WF dim) (tgt memory : Tensor3) (hc : tgt.cols = dim)
    (hmc : memory.cols = dim) (hmb : memory.batch = tgt.batch) (hmr : memory.rows = tgt.rows) :
    ∃ u, TransformerDecoder.run Ls tgt memory = some u ∧
      u.batch = tgt.batch ∧ u.rows = tgt.rows ∧ u.cols = dim := by
  induction Ls generalizing tgt with
  | nil => exact ⟨tgt, rfl, rfl, rfl, hc⟩
  | cons L Ls ih =>
      obtain ⟨a, ha, hab, har, hac⟩ := decoderLayer_forward_some L dim
        (hWF L (List.mem_cons_self L Ls)) tgt memory hc hmc hmb hmr
      obtain ⟨u, hu, hub, hur, huc⟩ := ih (fun L' hL' => hWF L' (List.mem_cons_of_mem L hL'))
        a hac (by rw [hmb, hab]) (by rw [hmr, har])
      refine ⟨u, ?_, by rw [hub, hab], by rw [hur, har], huc⟩
      unfold TransformerDecoder.run
      rw [ha]
      exact hu

theorem decoder_run_none (L : TransformerDecoderLayer)
    (Ls : List TransformerDecoderLayer) (tgt memory : Tensor3)
    (hnone : L.forward tgt memory = none) :
    TransformerDecoder.run (L :: Ls) tgt memory = none := by
  unfold TransformerDecoder.run
  rw [hnone]
  rfl

theorem decoder_forward_some (D : TransformerDecoder) (dim : Nat)
    (hWF : D.WF dim) (tgt memory : Tensor3) (hc : tgt.cols = dim)
    (hmc : memory.cols = dim) (hmb : memory.batch = tgt.batch) (hmr : memory.rows = tgt.rows) :
    ∃ (out pre : Tensor3), D.forward tgt memory = some (out, tgt.afterPE) ∧
      out = pre.softmaxLast ∧
      pre.batch = tgt.batch ∧ pre.rows = tgt.rows ∧ pre.cols = dim := by
  obtain ⟨hlayers, hlin, hlout⟩ := hWF
  have hpe := Tensor3.addPE_self tgt
  obtain ⟨u, hu, hub, hur, huc⟩ := decoder_run_some D.layers dim hlayers
    tgt.afterPE memory hc hmc hmb hmr
  obtain ⟨pre, hl, hpb, hpr, hpc⟩ := linear_forward_isSome D.linear u (by rw [huc, hlin])
  refine ⟨pre.softmaxLast, pre, ?_, rfl, by rw [hpb, hub]; rfl, by rw [hpr, hur]; rfl,
    by rw [hpc, hlout]⟩
  unfold TransformerDecoder.forward
  rw [hpe]
  show (TransformerDecoder.run D.layers _ memory).bind _ = _
  rw [hu]
  show (D.linear.forward u).bind _ = _
  rw [hl]
  rfl

theorem decoder_forward_none (D : TransformerDecoder) (dim : Nat)
    (hWF : D.WF dim) (L : TransformerDecoderLayer) (Ls : List TransformerDecoderLayer)
    (hLs : D.layers = L :: Ls) (tgt memory : Tensor3) (hc : tgt.cols = dim)
    (hmr : memory.rows ≠ tgt.rows) :
    D.forward tgt memory = none := by
  obtain ⟨hlayers, _, _⟩ := hWF
  have hLWF : L.WF dim := hlayers L (by rw [hLs]; exact List.mem_cons_self L Ls)
  have hpe := Tensor3.addPE_self tgt
  have hne2 : L.attention_2_mha.heads ≠ [] := hLWF.2.2.1.1
  have hnone := decoderLayer_forward_none L dim hLWF
    tgt.afterPE memory hc hne2 hmr
  unfold TransformerDecoder.forward
  rw [hpe]
  show (TransformerDecoder.run D.layers _ memory).bind _ = _
  rw [hLs, decoder_run_none L Ls _ memory hnone]
  rfl

theorem transformer_forward_full (T : Transformer) (dim : Nat) (hWF : T.WF dim)
    (src tgt : Tensor3) (hsc : src.cols = dim) (htc : tgt.cols = dim)
    (hb : src.batch = tgt.batch) (hr : src.rows = tgt.rows) :
    ∃ (out pre : Tensor3), T.forward src tgt = some (out, src.afterPE, tgt.afterPE) ∧
      out = pre.softmaxLast ∧
      out.batch = tgt.batch ∧ out.rows = tgt.rows ∧ out.cols = dim ∧ pre.cols = dim := by
  obtain ⟨hE, hD⟩ := hWF
  obtain ⟨mem, hmem, hmb, hmr, hmc⟩ := encoder_forward_some T.encoder dim hE src hsc
  obtain ⟨out, pre, hdec, hout, hpb, hpr, hpc⟩ := decoder_forward_some T.decoder dim hD
    tgt mem htc hmc (by rw [hmb, hb]) (by rw [hmr, hr])
  refine ⟨out, pre, ?_, hout, ?_, ?_, ?_, hpc⟩
  · unfold Transformer.forward
    rw [hmem]
    show (T.decoder.forward tgt mem).bind _ = _
    rw [hdec]
    rfl
  · rw [hout]; show pre.batch = tgt.batch; exact hpb
  · rw [hout]; show pre.rows = tgt.rows; exact hpr
  · rw [hout]; show pre.cols = dim; exact hpc

theorem transformer_forward_none (T : Transformer) (dim : Nat) (hWF : T.WF dim)
    (L : TransformerDecoderLayer) (Ls : List TransformerDecoderLayer)
    (hLs : T.decoder.layers = L :: Ls) (src tgt : Tensor3)
    (hsc : src.cols = dim) (htc : tgt.cols = dim) (hr : src.rows ≠ tgt.rows) :
    T.forward src tgt = none := by
  obtain ⟨hE, hD⟩ := hWF
  obtain ⟨mem, hmem, hmb, hmr, hmc⟩ := encoder_forward_some T.encoder dim hE src hsc
  have hdec := decoder_forward_none T.decoder dim hD L Ls hLs tgt mem htc
    (by rw [hmr]; exact hr)
  unfold Transformer.forward
  rw [hmem]
  show (T.decoder.forward tgt mem).bind _ = _
  rw [hdec]
  rfl

theorem mha_init_WF (nh dim dk : Nat) (h : 0 < nh) :
    (MultiHeadAttention.init nh dim dk dk).WF dim := by
  refine ⟨?_, ?_, ?_, rfl⟩
  · show List.replicate nh (AttentionHead.init dim dk dk) ≠ []
    exact List.length_pos.mp (by simpa using h)
  · intro hd hmem
    rw [List.eq_of_mem_replicate hmem]
    exact ⟨rfl, rfl, rfl, rfl⟩
  · show nh * dk = (List.map _ (List.replicate nh (AttentionHead.init dim dk dk))).sum
    rw [List.map_replicate, List.sum_replicate, smul_eq_mul]
    rfl

theorem encoderLayer_init_WF (dim nh ffdim : Nat) (h : 0 < nh) :
    (TransformerEncoderLayer.init dim nh ffdim).WF dim :=
  ⟨mha_init_WF nh dim (dim / nh) h, rfl, ⟨rfl, rfl, rfl⟩, rfl⟩

theorem decoderLayer_init_WF (dim nh ffdim : Nat) (h : 0 < nh) :
    (TransformerDecoderLayer.init dim nh ffdim).WF dim :=
  ⟨mha_init_WF nh dim (dim / nh) h, rfl,
   mha_init_WF nh dim (dim / nh) h, rfl, ⟨rfl, rfl, rfl⟩, rfl⟩

theorem transformer_init_WF (ne nd dim nh ffdim : Nat) (h : 0 < nh) :
    (Transformer.init ne nd dim nh ffdim).WF dim := by
  refine ⟨?_, ?_, rfl, rfl⟩
  · intro L hL
    rw [List.eq_of_mem_replicate hL]
    exact encoderLayer_init_WF dim nh ffdim h
  · intro L hL
    rw [List.eq_of_mem_replicate hL]
    exact decoderLayer_init_WF dim nh ffdim h

theorem encoder_forward_inv (E : TransformerEncoder) (src mem sa : Tensor3)
    (h : E.forward src = some (mem, sa)) : sa = src.afterPE := by
  unfold TransformerEncoder.forward at h
  rw [Tensor3.addPE_self src] at h
  replace h : (TransformerEncoder.run E.layers src.afterPE).bind
      (fun out => some (out, src.afterPE)) = some (mem, sa) := h
  rcases hrun : TransformerEncoder.run E.layers src.afterPE with _ | u
  · rw [hrun] at h; cases h
  · rw [hrun] at h
    replace h : (some (u, src.afterPE) : Option (Tensor3 × Tensor3)) = some (mem, sa) := h
    exact (congrArg Prod.snd (Option.some.inj h)).symm

theorem decoder_forward_inv (D : TransformerDecoder) (tgt memory o ta : Tensor3)
    (h : D.forward tgt memory = some (o, ta)) : ta = tgt.afterPE := by
  unfold TransformerDecoder.forward at h
  rw [Tensor3.addPE_self tgt] at h
  replace h : (TransformerDecoder.run D.layers tgt.afterPE memory).bind
      (fun out => (D.linear.forward out).bind fun lin =>
        some (lin.softmaxLast, tgt.afterPE)) = some (o, ta) := h
  rcases hrun : TransformerDecoder.run D.layers tgt.afterPE memory with _ | u
  · rw [hrun] at h; cases h
  · rw [hrun] at h
    replace h : (D.linear.forward u).bind (fun lin =>
        some (lin.softmaxLast, tgt.afterPE)) = some (o, ta) := h
    rcases hlin : D.linear.forward u with _ | l
    · rw [hlin] at h; cases h
    · rw [hlin] at h
      replace h : (some (l.softmaxLast, tgt.afterPE) : Option (Tensor3 × Tensor3)) = some (o, ta) := h
      exact (congrArg Prod.snd (Option.some.inj h)).symm

theorem transformer_forward_inv (T : Transformer) (src tgt out sa ta : Tensor3)
    (h : T.forward src tgt = some (out, sa, ta)) :
    sa = src.afterPE ∧ ta = tgt.afterPE := by
  unfold Transformer.forward at h
  rcases henc : T.encoder.forward src with _ | p
  · rw [henc] at h; cases h
  · rcases p with ⟨mem, sa0⟩
    rw [henc] at h
    replace h : (T.decoder.forward tgt mem).bind
        (fun q => some (q.1, sa0, q.2)) = some (out, sa, ta) := h
    rcases hdec : T.decoder.forward tgt mem with _ | q
    · rw [hdec] at h; cases h
    · rcases q with ⟨o, ta0⟩
      rw [hdec] at h
      replace h : (some (o, sa0, ta0) : Option (Tensor3 × Tensor3 × Tensor3)) = some (out, sa, ta) := h
      have hinj := Option.some.inj h
      have h2 : sa0 = sa := congrArg (fun x => x.2.1) hinj
      have h3 : ta0 = ta := congrArg (fun x => x.2.2) hinj
      rw [← h2, ← h3]
      exact ⟨encoder_forward_inv T.encoder src mem sa0 henc,
             decoder_forward_inv T.decoder tgt mem o ta0 hdec⟩

/-- C10: for every seq_len ≥ 1 and dim_model ≥ 1, `position_encoding` returns a
(1, seq_len, dim_model) tensor whose every in-range entry at an even channel is
sin 1 and at an odd channel is cos 1, identically for every position: the
exponent `dim // dim_model` is 0 for every channel index below `dim_model`, so
the phase is the constant 1 and the returned encoding carries no position
information. -/
theorem claim_C10 (seq_len dim_model : Nat) (hs : 1 ≤ seq_len) (hd : 1 ≤ dim_model) :
    (position_encoding seq_len dim_model).batch = 1 ∧
    (position_encoding seq_len dim_model).rows = seq_len ∧
    (position_encoding seq_len dim_model).cols = dim_model ∧
    ∀ b pos i, pos < seq_len → i < dim_model →
      (position_encoding seq_len dim_model).data b pos i =
        if i % 2 = 0 then Real.sin 1 else Real.cos 1 := by
  refine ⟨rfl, rfl, rfl, fun b pos i _ hi => ?_⟩
  simp only [position_encoding, pe_phase_one dim_model pos i hi]

theorem claim_C10_witness :
    (position_encoding 3 4).data 0 2 1 = if 1 % 2 = 0 then Real.sin 1 else Real.cos 1 :=
  (claim_C10 3 4 (by decide) (by decide)).2.2.2 0 2 1 (by decide) (by decide)

/-- C2: the positional-encoding formula of the specification (and of the
notebook's own markdown) fails on the code: at seq_len 1, dim_model 2, position
0, channel 0, the code computes sin 1 (phase `(pos/1e4) ** (dim // dim_model)`
evaluates to `0.0 ** 0.0 = 1.0`), while the documented formula gives
sin 0 = 0; in particular the row for position 0 is not [0, 1, 0, 1, ...]. -/
theorem claim_C2 :
    (position_encoding 1 2).data 0 0 0 = Real.sin 1 ∧
    (position_encoding_spec 1 2).data 0 0 0 = 0 ∧
    (position_encoding 1 2).data 0 0 0 ≠ (position_encoding_spec 1 2).data 0 0 0 := by
  have hcode : (position_encoding 1 2).data 0 0 0 = Real.sin 1 := by
    norm_num [position_encoding]
  have hspec : (position_encoding_spec 1 2).data 0 0 0 = 0 := by
    norm_num [position_encoding_spec]
  exact ⟨hcode, hspec, by rw [hcode, hspec]; exact sin_one_ne_zero⟩

/-- C4: for every query (batch, Lq, dk), key (batch, Lk, dk) and value
(batch, Lk, dv) sharing the batch size, with a nonempty key axis,
`scaled_dot_product_attention` succeeds and equals the batched matrix product
of the softmax attention weights (softmax of Q·Kᵗ/√dk along the key axis, every
row summing to 1) with V, and the output has shape (batch, Lq, dv). -/
theorem claim_C4 (q k v : Tensor3)
    (hbk : q.batch = k.batch) (hbv : v.batch = q.batch)
    (hc : q.cols = k.cols) (hr : k.rows = v.rows) (hk : 0 < k.rows) :
    ∃ (u w : Tensor3), scaled_dot_product_attention q k v = some u ∧
      sdpaWeights q k = some w ∧ w.bmm v = some u ∧
      (∀ i j, ∑ l ∈ Finset.range k.rows, w.data i j l = 1) ∧
      u.batch = q.batch ∧ u.rows = q.rows ∧ u.cols = v.cols := by
  obtain ⟨w, hw, hwb, hwr, hwc, hsum⟩ := sdpaWeights_some q k hbk hc
  obtain ⟨u, w2, hu, hw2, hbmm, hub, hur, huc⟩ :=
    scaled_dot_product_attention_some q k v hbk hbv hc hr
  rw [hw] at hw2
  cases Option.some.inj hw2
  exact ⟨u, w, hu, hw, hbmm, hsum hk, hub, hur, huc⟩

theorem claim_C4_witness :
    ∃ (u w : Tensor3),
      scaled_dot_product_attention (Tensor3.zero 1 1 1) (Tensor3.zero 1 1 1)
        (Tensor3.zero 1 1 1) = some u ∧
      sdpaWeights (Tensor3.zero 1 1 1) (Tensor3.zero 1 1 1) = some w ∧
      w.bmm (Tensor3.zero 1 1 1) = some u ∧
      (∀ i j, ∑ l ∈ Finset.range (Tensor3.zero 1 1 1).rows, w.data i j l = 1) ∧
      u.batch = 1 ∧ u.rows = 1 ∧ u.cols = 1 :=
  claim_C4 (Tensor3.zero 1 1 1) (Tensor3.zero 1 1 1) (Tensor3.zero 1 1 1)
    rfl rfl rfl rfl (by decide)

/-- C9: two transformers with identical configuration and identical parameter
values produce identical outputs on identical inputs — the forward pass in
evaluation mode (dropout disabled) is a deterministic function of parameters
and inputs only. -/
theorem claim_C9 (T1 T2 : Transformer) (s1 s2 t1 t2 : Tensor3)
    (hT : T1 = T2) (hs : s1 = s2) (ht : t1 = t2) :
    Transformer.forward T1 s1 t1 = Transformer.forward T2 s2 t2 := by
  rw [hT, hs, ht]

theorem claim_C9_witness :
    Transformer.forward (Transformer.init 1 1 2 1 4) (Tensor3.zero 1 1 2) (Tensor3.zero 1 1 2) =
      Transformer.forward (Transformer.init 1 1 2 1 4) (Tensor3.zero 1 1 2) (Tensor3.zero 1 1 2) :=
  claim_C9 (Transformer.init 1 1 2 1 4) (Transformer.init 1 1 2 1 4)
    (Tensor3.zero 1 1 2) (Tensor3.zero 1 1 2) (Tensor3.zero 1 1 2) (Tensor3.zero 1 1 2)
    rfl rfl rfl

/-- C7 counterexample: at dim_model = 5, num_heads = 2 (not divisible), the
checked construction the claim describes refuses (`none`), while the source
constructor completes without any error, silently giving both heads the
truncated projection width 5 / 2 = 2. -/
theorem claim_C7_counterexample :
    TransformerEncoderLayer.initChecked 5 2 8 = none ∧
    ((TransformerEncoderLayer.init 5 2 8).attention_mha.heads.map fun h => h.q.outF) = [2, 2] := by
  constructor
  · rfl
  · rfl

/-- C7 amended: construction of encoder and decoder layers never reports an
error for any configuration; it completes, setting every per-head projection
width to dim_model / num_heads (floor division), so a non-divisible
configuration silently truncates instead of failing. -/
theorem claim_C7 (dim_model num_heads dim_feedforward : Nat) :
    ((TransformerEncoderLayer.init dim_model num_heads dim_feedforward).attention_mha.heads.map
      fun h => h.q.outF) = List.replicate num_heads (dim_model / num_heads) ∧
    ((TransformerDecoderLayer.init dim_model num_heads dim_feedforward).attention_2_mha.heads.map
      fun h => h.q.outF) = List.replicate num_heads (dim_model / num_heads) := by
  constructor <;>
    [show List.map _ (List.replicate num_heads
        (AttentionHead.init dim_model (dim_model / num_heads) (dim_model / num_heads))) = _;
     show List.map _ (List.replicate num_heads
        (AttentionHead.init dim_model (dim_model / num_heads) (dim_model / num_heads))) = _] <;>
    rw [List.map_replicate] <;> rfl

/-- C8: `Residual.forward` computes `normalize(last_argument + dropout(sublayer(*arguments)))`
with the last positional argument as the residual base (evaluation mode:
dropout is the identity); consequently, when the sublayer returns the all-zero
tensor of the base's shape, the result is exactly the layer normalization of
the last argument. -/
theorem claim_C8 (r : Residual) (sublayer : List Tensor3 → Option Tensor3)
    (tensors : List Tensor3) (base : Tensor3) (hlast : tensors.getLast? = some base) :
    (∀ out s, sublayer tensors = some out → base.add (Dropout.forward out) = some s →
      r.forward sublayer tensors = r.norm.forward s) ∧
    (sublayer tensors = some (Tensor3.zero base.batch base.rows base.cols) →
      r.forward sublayer tensors = r.norm.forward base) := by
  constructor
  · intro out s hsub hadd
    unfold Residual.forward
    rw [hsub, hlast]
    show (base.add (Dropout.forward out)).bind r.norm.forward = _
    rw [hadd]
    rfl
  · intro hsub
    have hadd := Tensor3.add_isSome base
      (Dropout.forward (Tensor3.zero base.batch base.rows base.cols)) rfl rfl rfl
    have heq : (⟨base.batch, base.rows, base.cols, fun i j k =>
        base.data i j k +
          (Dropout.forward (Tensor3.zero base.batch base.rows base.cols)).data i j k⟩ :
        Tensor3) = base := by
      ext i j k
      · rfl
      · rfl
      · rfl
      · simp [Tensor3.zero, Dropout.forward]
    unfold Residual.forward
    rw [hsub, hlast]
    show (base.add (Dropout.forward (Tensor3.zero base.batch base.rows base.cols))).bind
      r.norm.forward = _
    rw [hadd, heq]
    rfl

theorem claim_C8_witness :
    Residual.forward (Residual.init 2) (fun _ => some (Tensor3.zero 1 1 2))
        [Tensor3.zero 1 1 2] =
      (Residual.init 2).norm.forward (Tensor3.zero 1 1 2) :=
  (claim_C8 (Residual.init 2) (fun _ => some (Tensor3.zero 1 1 2)) [Tensor3.zero 1 1 2]
    (Tensor3.zero 1 1 2) rfl).2 rfl

/-- C3 counterexample: a well-formed Transformer (one encoder and one decoder
layer, dim_model 2, one head) applied to a source of sequence length 1 and a
target of sequence length 2, sharing batch size 1 and dim_model 2, fails with a
shape error (none) instead of succeeding: the cross-attention step multiplies
the (Ls × Ls) attention weights with the (Lt × dv) projected target values. -/
theorem claim_C3_counterexample :
    Transformer.forward (Transformer.init 1 1 2 1 4) (Tensor3.zero 1 1 2)
      (Tensor3.zero 1 2 2) = none :=
  transformer_forward_none (Transformer.init 1 1 2 1 4) 2
    (transformer_init_WF 1 1 2 1 4 (by decide))
    (TransformerDecoderLayer.init 2 1 4) [] rfl (Tensor3.zero 1 1 2) (Tensor3.zero 1 2 2)
    rfl rfl (by decide)

/-- C3 amended: for every well-formed Transformer and source/target tensors
sharing batch size, dim_model and also sequence length (Ls = Lt),
`Transformer.forward` succeeds and returns a tensor of shape
(batch, Lt, dim_model); when Ls ≠ Lt the forward pass fails in the
cross-attention batched matrix product instead (see the counterexample). -/
theorem claim_C3 (T : Transformer) (dim : Nat) (hWF : T.WF dim) (src tgt : Tensor3)
    (hsc : src.cols = dim) (htc : tgt.cols = dim) (hb : src.batch = tgt.batch)
    (hr : src.rows = tgt.rows) :
    ∃ (out sa ta : Tensor3), T.forward src tgt = some (out, sa, ta) ∧
      out.batch = tgt.batch ∧ out.rows = tgt.rows ∧ out.cols = dim := by
  obtain ⟨out, pre, hfwd, _, hob, hor, hoc, _⟩ :=
    transformer_forward_full T dim hWF src tgt hsc htc hb hr
  exact ⟨out, _, _, hfwd, hob, hor, hoc⟩

theorem claim_C3_witness :
    ∃ (out sa ta : Tensor3),
      Transformer.forward (Transformer.init 1 1 2 1 4) (Tensor3.zero 1 1 2)
        (Tensor3.zero 1 1 2) = some (out, sa, ta) ∧
      out.batch = 1 ∧ out.rows = 1 ∧ out.cols = 2 :=
  claim_C3 (Transformer.init 1 1 2 1 4) 2 (transformer_init_WF 1 1 2 1 4 (by decide))
    (Tensor3.zero 1 1 2) (Tensor3.zero 1 1 2) rfl rfl rfl rfl

/-- C5: every Transformer with 6 encoder and 6 decoder layers, dim_model 512
and num_heads 8 (arbitrary parameter values of those shapes), evaluated with
dropout disabled on source and target tensors of shape (64, 16, 512), returns
an output of shape (64, 16, 512) in which every position's channel vector sums
exactly to 1 — the final linear projection feeds a softmax over the channel
axis. -/
theorem claim_C5 (T : Transformer) (hWF : T.WF 512)
    (hne : T.encoder.layers.length = 6) (hnd : T.decoder.layers.length = 6)
    (hheadsE : ∀ L ∈ T.encoder.layers, L.attention_mha.heads.length = 8)
    (hheadsD : ∀ L ∈ T.decoder.layers, L.attention_1_mha.heads.length = 8)
    (src tgt : Tensor3)
    (hsb : src.batch = 64) (hsr : src.rows = 16) (hsc : src.cols = 512)
    (htb : tgt.batch = 64) (htr : tgt.rows = 16) (htc : tgt.cols = 512) :
    ∃ (out sa ta : Tensor3), T.forward src tgt = some (out, sa, ta) ∧
      out.batch = 64 ∧ out.rows = 16 ∧ out.cols = 512 ∧
      ∀ i j, ∑ kk ∈ Finset.range 512, out.data i j kk = 1 := by
  obtain ⟨out, pre, hfwd, hsoft, hob, hor, hoc, hpc⟩ :=
    transformer_forward_full T 512 hWF src tgt hsc htc (by rw [hsb, htb]) (by rw [hsr, htr])
  refine ⟨out, _, _, hfwd, by rw [hob, htb], by rw [hor, htr], hoc, ?_⟩
  intro i j
  have hsum := Tensor3.softmaxLast_row_sum pre (by rw [hpc]; decide) i j
  rw [hpc] at hsum
  rw [hsoft]
  exact hsum

theorem claim_C5_witness :
    ∃ (out sa ta : Tensor3),
      Transformer.forward (Transformer.init 6 6 512 8 2048) (Tensor3.zero 64 16 512)
        (Tensor3.zero 64 16 512) = some (out, sa, ta) ∧
      out.batch = 64 ∧ out.rows = 16 ∧ out.cols = 512 ∧
      ∀ i j, ∑ kk ∈ Finset.range 512, out.data i j kk = 1 :=
  claim_C5 (Transformer.init 6 6 512 8 2048) (transformer_init_WF 6 6 512 8 2048 (by decide))
    rfl rfl
    (fun L hL => by rw [List.eq_of_mem_replicate hL]; rfl)
    (fun L hL => by rw [List.eq_of_mem_replicate hL]; rfl)
    (Tensor3.zero 64 16 512) (Tensor3.zero 64 16 512) rfl rfl rfl rfl rfl rfl

/-- C6 counterexample: with a well-formed one-layer transformer on all-zero
inputs, the forward pass succeeds but the caller's source tensor no longer
holds the values it held before the call: `src += position_encoding(...)` is an
in-place torch operation, so entry (0,0,0) changes from 0 to sin 1 ≠ 0. -/
theorem claim_C6_counterexample :
    ∃ r : Tensor3 × Tensor3 × Tensor3,
      Transformer.forward (Transformer.init 1 1 2 1 4) (Tensor3.zero 1 1 2)
        (Tensor3.zero 1 1 2) = some r ∧
      r.2.1 ≠ Tensor3.zero 1 1 2 := by
  obtain ⟨out, pre, hfwd, -, -, -, -, -⟩ :=
    transformer_forward_full (Transformer.init 1 1 2 1 4) 2
      (transformer_init_WF 1 1 2 1 4 (by decide)) (Tensor3.zero 1 1 2) (Tensor3.zero 1 1 2)
      rfl rfl rfl rfl
  refine ⟨_, hfwd, ?_⟩
  intro hEq
  have hdata := congrArg (fun t => t.data 0 0 0) hEq
  simp [Tensor3.afterPE, Tensor3.zero, position_encoding] at hdata
  exact sin_one_ne_zero hdata

/-- C6 amended: the forward pass is a pure function of its inputs and owned
parameters except that it mutates the caller's source and target buffers in
place through `+= position_encoding(...)`: whenever `Transformer.forward`
returns, the caller's source tensor holds source + positional encoding and the
caller's target tensor holds target + positional encoding (values changed, not
preserved). -/
theorem claim_C6 (T : Transformer) (src tgt out sa ta : Tensor3)
    (h : T.forward src tgt = some (out, sa, ta)) :
    sa = src.afterPE ∧ ta = tgt.afterPE :=
  transformer_forward_inv T src tgt out sa ta h

theorem claim_C6_witness :
    ∃ (out sa ta : Tensor3),
      Transformer.forward (Transformer.init 1 1 2 1 4) (Tensor3.zero 1 1 2)
        (Tensor3.zero 1 1 2) = some (out, sa, ta) ∧
      sa = (Tensor3.zero 1 1 2).afterPE ∧ ta = (Tensor3.zero 1 1 2).afterPE := by
  obtain ⟨out, pre, hfwd, -, -, -, -, -⟩ :=
    transformer_forward_full (Transformer.init 1 1 2 1 4) 2
      (transformer_init_WF 1 1 2 1 4 (by decide)) (Tensor3.zero 1 1 2) (Tensor3.zero 1 1 2)
      rfl rfl rfl rfl
  exact ⟨out, _, _, hfwd,
    claim_C6 (Transformer.init 1 1 2 1 4) (Tensor3.zero 1 1 2) (Tensor3.zero 1 1 2) out _ _ hfwd⟩

/-- The 2-to-2 identity linear layer (identity weights, zero bias), a concrete
parameter assignment for instantiating attention modules. -/
def idLin2 : Linear := ⟨2, 2, fun k m => if k = m then 1 else 0, fun _ => 0⟩

/-- A concrete attention head of width 2 whose three projections are the
identity. -/
def head2 : AttentionHead := ⟨idLin2, idLin2, idLin2⟩

/-- A concrete single-head multi-head attention block with identity fusion. -/
def mha2 : MultiHeadAttention := ⟨[head2], idLin2⟩

def res2 : Residual := Residual.init 2

/-- A concrete encoder-memory tensor of shape (1, 1, 2) holding the channel
vector (2, 0). -/
def memT : Tensor3 := ⟨1, 1, 2, fun _ _ k => if k = 0 then 2 else 0⟩

/-- A concrete decoder layer built from the components above. -/
def decLayer0 : TransformerDecoderLayer := ⟨mha2, res2, mha2, res2, feed_forward 2 4, res2⟩

/-- The decoder cross-attention step as the specification words it: a residual
step whose multi-head attention takes its keys and its values from the encoder
memory (querying with the self-attended target), while the residual base is the
self-attended target tensor. -/
def crossResidualSpec (r : Residual) (m : MultiHeadAttention) (tgt1 memory : Tensor3) :
    Option Tensor3 := do
  let out ← m.forward tgt1 memory memory
  let s ← tgt1.add (Dropout.forward out)
  r.norm.forward s

/-- The decoder cross-attention step the code performs: multi-head attention
receives the encoder memory as query and as key, and the self-attended target
as value; the residual base is also the self-attended target. -/
def crossResidualCode (r : Residual) (m : MultiHeadAttention) (tgt1 memory : Tensor3) :
    Option Tensor3 := do
  let out ← m.forward memory memory tgt1
  let s ← tgt1.add (Dropout.forward out)
  r.norm.forward s

theorem idLin2_memT : idLin2.forward memT = some memT := by
  rw [linear_forward_some idLin2 memT rfl]
  congr 1
  refine Tensor3.ext rfl rfl rfl ?_
  funext i j k
  show (∑ m ∈ Finset.range 2, memT.data i j m * idLin2.weight k m) + 0 = memT.data i j k
  rcases Nat.lt_or_ge k 2 with hk | hk
  · interval_cases k <;> simp [memT, idLin2, Finset.sum_range_succ]
  · have h0 : ¬ (k = 0) := by omega
    have h1 : ¬ (k = 1) := by omega
    simp [memT, idLin2, Finset.sum_range_succ, h0, h1]

theorem idLin2_zero : idLin2.forward (Tensor3.zero 1 1 2) = some (Tensor3.zero 1 1 2) := by
  rw [linear_forward_some idLin2 (Tensor3.zero 1 1 2) rfl]
  congr 1
  refine Tensor3.ext rfl rfl rfl ?_
  funext i j k
  simp [Tensor3.zero, idLin2]

theorem bmm_into_zero (w : Tensor3) (hb : w.batch = 1) (hr : w.rows = 1) (hc : w.cols = 1) :
    w.bmm (Tensor3.zero 1 1 2) = some (Tensor3.zero 1 1 2) := by
  rw [Tensor3.bmm_some w (Tensor3.zero 1 1 2) (by rw [hb]; rfl) (by rw [hc]; rfl)]
  congr 1
  refine Tensor3.ext hb hr rfl ?_
  funext i j k
  simp [Tensor3.zero]

theorem sdpa_mem_mem_zero :
    scaled_dot_product_attention memT memT (Tensor3.zero 1 1 2) =
      some (Tensor3.zero 1 1 2) := by
  unfold scaled_dot_product_attention
  rw [Tensor3.bmm_some memT memT.transpose12 rfl rfl]
  exact bmm_into_zero
    (((⟨memT.batch, memT.rows, memT.transpose12.cols, fun i j k =>
        ∑ l ∈ Finset.range memT.cols, memT.data i j l * memT.transpose12.data i l k⟩ :
      Tensor3).scalarDiv (Real.sqrt (memT.cols : ℝ))).softmaxLast) rfl rfl rfl

theorem head2_code :
    head2.forward memT memT (Tensor3.zero 1 1 2) = some (Tensor3.zero 1 1 2) := by
  show (do
    let qp ← idLin2.forward memT
    let kp ← idLin2.forward memT
    let vp ← idLin2.forward (Tensor3.zero 1 1 2)
    scaled_dot_product_attention qp kp vp) = some (Tensor3.zero 1 1 2)
  rw [idLin2_memT, idLin2_zero]
  exact sdpa_mem_mem_zero

theorem mha2_code :
    mha2.forward memT memT (Tensor3.zero 1 1 2) = some (Tensor3.zero 1 1 2) := by
  have hrun : runHeads mha2.heads memT memT (Tensor3.zero 1 1 2) =
      some [Tensor3.zero 1 1 2] := by
    show runHeads [head2] memT memT (Tensor3.zero 1 1 2) = some [Tensor3.zero 1 1 2]
    unfold runHeads
    rw [head2_code]
    rfl
  unfold MultiHeadAttention.forward
  rw [hrun]
  exact idLin2_zero

theorem add_zero_dropout_zero :
    (Tensor3.zero 1 1 2).add (Dropout.forward (Tensor3.zero 1 1 2)) =
      some (Tensor3.zero 1 1 2) := by
  rw [Tensor3.add_isSome (Tensor3.zero 1 1 2) (Dropout.forward (Tensor3.zero 1 1 2)) rfl rfl rfl]
  congr 1
  refine Tensor3.ext rfl rfl rfl ?_
  funext i j k
  simp [Tensor3.zero, Dropout.forward]

theorem layerNorm2_zero :
    (LayerNorm.init 2).forward (Tensor3.zero 1 1 2) = some (Tensor3.zero 1 1 2) := by
  unfold LayerNorm.forward
  rw [if_pos (show (Tensor3.zero 1 1 2).cols = (LayerNorm.init 2).dim from rfl)]
  congr 1
  refine Tensor3.ext rfl rfl rfl ?_
  funext i j k
  simp [Tensor3.zero, LayerNorm.init]

theorem cross_code_eval :
    Residual.forward res2 mha2.call [memT, memT, Tensor3.zero 1 1 2] =
      some (Tensor3.zero 1 1 2) := by
  unfold Residual.forward
  show (mha2.forward memT memT (Tensor3.zero 1 1 2)).bind
    (fun out => ([memT, memT, Tensor3.zero 1 1 2].getLast?).bind fun base =>
      (base.add (Dropout.forward out)).bind res2.norm.forward) = some (Tensor3.zero 1 1 2)
  rw [mha2_code]
  show ((Tensor3.zero 1 1 2).add (Dropout.forward (Tensor3.zero 1 1 2))).bind
    res2.norm.forward = some (Tensor3.zero 1 1 2)
  rw [add_zero_dropout_zero]
  exact layerNorm2_zero

theorem softmaxLast_single (t : Tensor3) (hc : t.cols = 1) (i j k : Nat) :
    t.softmaxLast.data i j k = Real.exp (t.data i j k) / Real.exp (t.data i j 0) := by
  show Real.exp (t.data i j k) / (∑ l ∈ Finset.range t.cols, Real.exp (t.data i j l)) = _
  rw [hc, Finset.sum_range_one]

theorem sdpa_zero_mem_mem :
    scaled_dot_product_attention (Tensor3.zero 1 1 2) memT memT = some memT := by
  unfold scaled_dot_product_attention
  rw [Tensor3.bmm_some (Tensor3.zero 1 1 2) memT.transpose12 rfl rfl]
  set T0 : Tensor3 := ⟨(Tensor3.zero 1 1 2).batch, (Tensor3.zero 1 1 2).rows,
      memT.transpose12.cols,
      fun i j k => ∑ l ∈ Finset.range (Tensor3.zero 1 1 2).cols,
        (Tensor3.zero 1 1 2).data i j l * memT.transpose12.data i l k⟩ with hT0
  show ((T0.scalarDiv (Real.sqrt ((Tensor3.zero 1 1 2).cols : ℝ))).softmaxLast).bmm memT =
    some memT
  rw [Tensor3.bmm_some ((T0.scalarDiv
    (Real.sqrt ((Tensor3.zero 1 1 2).cols : ℝ))).softmaxLast) memT rfl rfl]
  congr 1
  refine Tensor3.ext rfl rfl rfl ?_
  funext i j k
  show (∑ l ∈ Finset.range
      ((T0.scalarDiv (Real.sqrt ((Tensor3.zero 1 1 2).cols : ℝ))).softmaxLast.cols),
      (T0.scalarDiv (Real.sqrt ((Tensor3.zero 1 1 2).cols : ℝ))).softmaxLast.data i j l *
        memT.data i l k) = memT.data i j k
  have hcols : (T0.scalarDiv
      (Real.sqrt ((Tensor3.zero 1 1 2).cols : ℝ))).softmaxLast.cols = 1 := rfl
  rw [hcols, Finset.sum_range_one,
    softmaxLast_single (T0.scalarDiv (Real.sqrt ((Tensor3.zero 1 1 2).cols : ℝ))) rfl i j 0,
    div_self (Real.exp_ne_zero _), one_mul]
  rfl

theorem head2_spec :
    head2.forward (Tensor3.zero 1 1 2) memT memT = some memT := by
  show (do
    let qp ← idLin2.forward (Tensor3.zero 1 1 2)
    let kp ← idLin2.forward memT
    let vp ← idLin2.forward memT
    scaled_dot_product_attention qp kp vp) = some memT
  rw [idLin2_memT, idLin2_zero]
  exact sdpa_zero_mem_mem

theorem mha2_spec :
    mha2.forward (Tensor3.zero 1 1 2) memT memT = some memT := by
  have hrun : runHeads mha2.heads (Tensor3.zero 1 1 2) memT memT = some [memT] := by
    show runHeads [head2] (Tensor3.zero 1 1 2) memT memT = some [memT]
    unfold runHeads
    rw [head2_spec]
    rfl
  unfold MultiHeadAttention.forward
  rw [hrun]
  exact idLin2_memT

theorem add_zero_dropout_memT :
    (Tensor3.zero 1 1 2).add (Dropout.forward memT) = some memT := by
  rw [Tensor3.add_isSome (Tensor3.zero 1 1 2) (Dropout.forward memT) rfl rfl rfl]
  congr 1
  refine Tensor3.ext rfl rfl rfl ?_
  funext i j k
  simp [Tensor3.zero, Dropout.forward]

theorem layerNorm2_memT_pos :
    ∃ N, (LayerNorm.init 2).forward memT = some N ∧ 0 < N.data 0 0 0 := by
  unfold LayerNorm.forward
  rw [if_pos (show memT.cols = (LayerNorm.init 2).dim from rfl)]
  refine ⟨_, rfl, ?_⟩
  show (0:ℝ) < (LayerNorm.init 2).gamma 0 *
    ((memT.data 0 0 0 - (∑ l ∈ Finset.range memT.cols, memT.data 0 0 l) / (memT.cols : ℝ)) /
      Real.sqrt ((∑ l ∈ Finset.range memT.cols,
        (memT.data 0 0 l - (∑ l2 ∈ Finset.range memT.cols, memT.data 0 0 l2) / (memT.cols : ℝ)) ^ 2) /
          (memT.cols : ℝ) + layerNormEps)) + (LayerNorm.init 2).beta 0
  have hmem0 : memT.data 0 0 0 = 2 := rfl
  have hmem1 : memT.data 0 0 1 = 0 := rfl
  have hsum : (∑ l ∈ Finset.range memT.cols, memT.data 0 0 l) = 2 := by
    show (∑ l ∈ Finset.range 2, memT.data 0 0 l) = 2
    rw [Finset.sum_range_succ, Finset.sum_range_one, hmem0, hmem1]
    norm_num
  have hvar : (∑ l ∈ Finset.range memT.cols,
      (memT.data 0 0 l - (∑ l2 ∈ Finset.range memT.cols, memT.data 0 0 l2) / (memT.cols : ℝ)) ^ 2) = 2 := by
    rw [hsum]
    show (∑ l ∈ Finset.range 2, (memT.data 0 0 l - 2 / (2:ℝ)) ^ 2) = 2
    rw [Finset.sum_range_succ, Finset.sum_range_one, hmem0, hmem1]
    norm_num
  rw [hvar, hsum, hmem0]
  show (0:ℝ) < 1 * ((2 - 2 / (2:ℝ)) / Real.sqrt ((2:ℝ) / 2 + layerNormEps)) + 0
  have hsq : (0:ℝ) < Real.sqrt ((2:ℝ) / 2 + layerNormEps) :=
    Real.sqrt_pos.mpr (by norm_num [layerNormEps])
  have : (0:ℝ) < (2 - 2 / (2:ℝ)) / Real.sqrt ((2:ℝ) / 2 + layerNormEps) :=
    div_pos (by norm_num) hsq
  linarith

theorem cross_spec_eval :
    ∃ N, crossResidualSpec res2 mha2 (Tensor3.zero 1 1 2) memT = some N ∧
      0 < N.data 0 0 0 := by
  obtain ⟨N, hN, hpos⟩ := layerNorm2_memT_pos
  refine ⟨N, ?_, hpos⟩
  unfold crossResidualSpec
  rw [mha2_spec]
  show ((Tensor3.zero 1 1 2).add (Dropout.forward memT)).bind res2.norm.forward = some N
  rw [add_zero_dropout_memT]
  exact hN

theorem sdpa_zero_zero_zero :
    scaled_dot_product_attention (Tensor3.zero 1 1 2) (Tensor3.zero 1 1 2)
      (Tensor3.zero 1 1 2) = some (Tensor3.zero 1 1 2) := by
  unfold scaled_dot_product_attention
  rw [Tensor3.bmm_some (Tensor3.zero 1 1 2) (Tensor3.zero 1 1 2).transpose12 rfl rfl]
  exact bmm_into_zero
    (((⟨(Tensor3.zero 1 1 2).batch, (Tensor3.zero 1 1 2).rows,
      (Tensor3.zero 1 1 2).transpose12.cols, fun i j k =>
        ∑ l ∈ Finset.range (Tensor3.zero 1 1 2).cols,
          (Tensor3.zero 1 1 2).data i j l * (Tensor3.zero 1 1 2).transpose12.data i l k⟩ :
      Tensor3).scalarDiv (Real.sqrt ((Tensor3.zero 1 1 2).cols : ℝ))).softmaxLast) rfl rfl rfl

theorem head2_zero :
    head2.forward (Tensor3.zero 1 1 2) (Tensor3.zero 1 1 2) (Tensor3.zero 1 1 2) =
      some (Tensor3.zero 1 1 2) := by
  show (do
    let qp ← idLin2.forward (Tensor3.zero 1 1 2)
    let kp ← idLin2.forward (Tensor3.zero 1 1 2)
    let vp ← idLin2.forward (Tensor3.zero 1 1 2)
    scaled_dot_product_attention qp kp vp) = some (Tensor3.zero 1 1 2)
  rw [idLin2_zero]
  exact sdpa_zero_zero_zero

theorem mha2_zero :
    mha2.forward (Tensor3.zero 1 1 2) (Tensor3.zero 1 1 2) (Tensor3.zero 1 1 2) =
      some (Tensor3.zero 1 1 2) := by
  have hrun : runHeads mha2.heads (Tensor3.zero 1 1 2) (Tensor3.zero 1 1 2)
      (Tensor3.zero 1 1 2) = some [Tensor3.zero 1 1 2] := by
    show runHeads [head2] (Tensor3.zero 1 1 2) (Tensor3.zero 1 1 2) (Tensor3.zero 1 1 2) =
      some [Tensor3.zero 1 1 2]
    unfold runHeads
    rw [head2_zero]
    rfl
  unfold MultiHeadAttention.forward
  rw [hrun]
  exact idLin2_zero

theorem self_zero_eval :
    Residual.forward res2 mha2.call
        [Tensor3.zero 1 1 2, Tensor3.zero 1 1 2, Tensor3.zero 1 1 2] =
      some (Tensor3.zero 1 1 2) := by
  unfold Residual.forward
  show (mha2.forward (Tensor3.zero 1 1 2) (Tensor3.zero 1 1 2) (Tensor3.zero 1 1 2)).bind
    (fun out => ([Tensor3.zero 1 1 2, Tensor3.zero 1 1 2, Tensor3.zero 1 1 2].getLast?).bind
      fun base => (base.add (Dropout.forward out)).bind res2.norm.forward) =
    some (Tensor3.zero 1 1 2)
  rw [mha2_zero]
  show ((Tensor3.zero 1 1 2).add (Dropout.forward (Tensor3.zero 1 1 2))).bind
    res2.norm.forward = some (Tensor3.zero 1 1 2)
  rw [add_zero_dropout_zero]
  exact layerNorm2_zero

/-- C1 counterexample: in the concrete decoder layer `decLayer0` (identity
attention projections, width 2), with the self-attended target being the zero
tensor and the encoder memory holding (2, 0), the second Residual invocation
the code performs — `Residual.forward` on the argument list
[memory, memory, target], so multi-head attention reads its value from the
target — returns the zero tensor, while the invocation the claim describes
(keys and values both from the encoder memory, residual base the self-attended
target) returns a tensor with a strictly positive entry (0,0,0): the two
disagree, so the claim is false on the code. -/
theorem claim_C1_counterexample :
    Residual.forward decLayer0.attention_2_res decLayer0.attention_2_mha.call
        [memT, memT, Tensor3.zero 1 1 2] ≠
      crossResidualSpec decLayer0.attention_2_res decLayer0.attention_2_mha
        (Tensor3.zero 1 1 2) memT := by
  obtain ⟨N, hN, hpos⟩ := cross_spec_eval
  intro hEq
  have h1 : Residual.forward res2 mha2.call [memT, memT, Tensor3.zero 1 1 2] =
      crossResidualSpec res2 mha2 (Tensor3.zero 1 1 2) memT := hEq
  rw [cross_code_eval, hN] at h1
  have h2 := Option.some.inj h1
  rw [← h2] at hpos
  simp [Tensor3.zero] at hpos

/-- C1 amended: in every Decoder Layer forward pass, the second (cross-attention)
Residual Wrapper invokes multi-head attention with its query and its keys taken
from the encoder memory and its value taken from the already self-attended
target tensor, which also serves as the residual base: whenever the
self-attention step yields `tgt1`, the layer's remaining computation is the
code-side cross step (query = key = memory, value = base = tgt1) followed by
the feed-forward residual block, and the second Residual invocation coincides
with that cross step. -/
theorem claim_C1 (L : TransformerDecoderLayer) (tgt memory tgt1 : Tensor3)
    (h : L.attention_1_res.forward L.attention_1_mha.call [tgt, tgt, tgt] = some tgt1) :
    L.forward tgt memory =
      (crossResidualCode L.attention_2_res L.attention_2_mha tgt1 memory).bind
        (fun tgt2 => L.ff_res.forward L.ff.call [tgt2]) ∧
    Residual.forward L.attention_2_res L.attention_2_mha.call [memory, memory, tgt1] =
      crossResidualCode L.attention_2_res L.attention_2_mha tgt1 memory := by
  constructor
  · unfold TransformerDecoderLayer.forward
    rw [h]
    rfl
  · rfl

theorem claim_C1_witness :
    ∃ tgt1, decLayer0.attention_1_res.forward decLayer0.attention_1_mha.call
        [Tensor3.zero 1 1 2, Tensor3.zero 1 1 2, Tensor3.zero 1 1 2] = some tgt1 ∧
      decLayer0.forward (Tensor3.zero 1 1 2) memT =
        (crossResidualCode decLayer0.attention_2_res decLayer0.attention_2_mha tgt1 memT).bind
          (fun tgt2 => decLayer0.ff_res.forward decLayer0.ff.call [tgt2]) := by
  have hself : decLayer0.attention_1_res.forward decLayer0.attention_1_mha.call
      [Tensor3.zero 1 1 2, Tensor3.zero 1 1 2, Tensor3.zero 1 1 2] =
      some (Tensor3.zero 1 1 2) := self_zero_eval
  exact ⟨Tensor3.zero 1 1 2, hself,
    (claim_C1 decLayer0 (Tensor3.zero 1 1 2) memT (Tensor3.zero 1 1 2) hself).1⟩
